import Mathlib

/-!
Verification of the Dice-coefficient scoring and loss functions of the
medical-decathlon repository (2D U-Net BraTS segmentation).

The repository's only hand-written numeric component lives in the inference
notebook: `calc_dice` (numpy, full reduction), `dice_coef` (soft Dice,
per-sample reduction over axes (1, 2) then batch mean), `dice_coef_loss`
(log form of the soft Dice) and `combined_dice_ce_loss` (blend of
`dice_coef_loss` with Keras binary cross-entropy).

Arrays are modelled as rank-3 nested lists of rationals with shape
(batch, height, width) — the channel axis of the real data always has
size one and is absorbed into the width axis; `axis=(1, 2)` therefore
reduces every non-batch axis, matching all call sites in the repository.
Elementwise numpy/TensorFlow arithmetic follows the broadcasting rule for
aligned ranks: at each level a length-1 list is repeated along the other
operand's length.  Real-valued logarithms (`tf.log`) are `Real.log`.
-/

namespace MedDecathlon

abbrev T1 := List ℚ
abbrev T2 := List T1
abbrev T3 := List T2

/-- Elementwise binary operation on rank-1 arrays with numpy-style
broadcasting for aligned shapes: a length-1 operand is repeated. -/
def bmap1 (f : ℚ → ℚ → ℚ) (a b : T1) : T1 :=
  (List.range (max a.length b.length)).map fun i =>
    f (a.getD (if a.length = 1 then 0 else i) 0)
      (b.getD (if b.length = 1 then 0 else i) 0)

/-- Elementwise binary operation on rank-2 arrays with broadcasting. -/
def bmap2 (f : ℚ → ℚ → ℚ) (a b : T2) : T2 :=
  (List.range (max a.length b.length)).map fun i =>
    bmap1 f (a.getD (if a.length = 1 then 0 else i) [])
            (b.getD (if b.length = 1 then 0 else i) [])

/-- Elementwise binary operation on rank-3 arrays with broadcasting. -/
def bmap3 (f : ℚ → ℚ → ℚ) (a b : T3) : T3 :=
  (List.range (max a.length b.length)).map fun i =>
    bmap2 f (a.getD (if a.length = 1 then 0 else i) [])
            (b.getD (if b.length = 1 then 0 else i) [])

/-- Sum of a rank-2 array over all its axes (one sample's total). -/
def sum2 (a : T2) : ℚ := (a.map List.sum).sum

/-- `np.sum` over every axis of a rank-3 array. -/
def sum3 (a : T3) : ℚ := (a.map sum2).sum

/-- Shape of a rank-2 array: the list of row lengths. -/
def shape2 (a : T2) : List ℕ := a.map List.length

/-- Shape of a rank-3 array: the list of per-sample shapes. -/
def shape3 (a : T3) : List (List ℕ) := a.map shape2

/-- `tf.reduce_mean` over a rank-1 array. -/
def mean (l : List ℚ) : ℚ := l.sum / l.length

/-- `mean` for real-valued rank-1 arrays. -/
noncomputable def meanR (l : List ℝ) : ℝ := l.sum / l.length

/-- `calc_dice(y_true, y_pred, smooth)` from the inference notebook:
`numerator = 2.0 * np.sum(y_true * y_pred) + smooth`,
`denominator = np.sum(y_true) + np.sum(y_pred) + smooth`,
returns `numerator / denominator`. -/
def calc_dice (y_true y_pred : T3) (smooth : ℚ) : ℚ :=
  let numerator := 2 * sum3 (bmap3 (· * ·) y_true y_pred) + smooth
  let denominator := sum3 y_true + sum3 y_pred + smooth
  numerator / denominator

/-- `dice_coef(y_true, y_pred, axis=(1,2), smooth)` from the notebook:
per-sample intersection and union sums over the non-batch axes,
per-sample coefficient `(2*I + smooth) / (U + smooth)`, then
`tf.reduce_mean` over the batch. -/
def dice_coef (y_true y_pred : T3) (smooth : ℚ) : ℚ :=
  let intersection := (bmap3 (· * ·) y_true y_pred).map sum2
  let union := (bmap3 (· + ·) y_true y_pred).map sum2
  let numerator := intersection.map (fun i => 2 * i + smooth)
  let denominator := union.map (· + smooth)
  mean (bmap1 (· / ·) numerator denominator)

/-- `dice_coef_loss(target, prediction, axis=(1,2), smooth)` from the
notebook: `numerator = tf.reduce_mean(intersection + smooth)`,
`denominator = tf.reduce_mean(t + p + smooth)`, and the loss is
`-tf.log(2*numerator) + tf.log(denominator)`. -/
noncomputable def dice_coef_loss (target prediction : T3) (smooth : ℚ) : ℝ :=
  let intersection := (bmap3 (· * ·) prediction target).map sum2;
  let p := prediction.map sum2;
  let t := target.map sum2;
  let numerator := mean (intersection.map (· + smooth));
  let denominator := mean ((bmap1 (· + ·) t p).map (· + smooth));
  -Real.log (2 * (numerator : ℝ)) + Real.log (denominator : ℝ)

/-- One term of Keras binary cross-entropy:
`-(y*log(p) + (1-y)*log(1-p))`. -/
noncomputable def bceElem (y p : ℚ) : ℝ :=
  -((y : ℝ) * Real.log (p : ℝ) + (1 - (y : ℝ)) * Real.log (1 - (p : ℝ)))

/-- `K.losses.binary_crossentropy(y_true, y_pred)`: the mean over the last
axis of the elementwise binary cross-entropy, leaving a rank-2 array. -/
noncomputable def binary_crossentropy (y_true y_pred : T3) : List (List ℝ) :=
  List.zipWith
    (fun a b => List.zipWith (fun r s => meanR (List.zipWith bceElem r s)) a b)
    y_true y_pred

/-- `combined_dice_ce_loss(y_true, y_pred, axis=(1,2), smooth, weight)`:
`weight*dice_coef_loss(...) + (1-weight)*K.losses.binary_crossentropy(...)`.
The scalar loss broadcasts against the rank-2 cross-entropy array. -/
noncomputable def combined_dice_ce_loss (y_true y_pred : T3) (smooth weight : ℚ) :
    List (List ℝ) :=
  (binary_crossentropy y_true y_pred).map fun row =>
    row.map fun e =>
      (weight : ℝ) * dice_coef_loss y_true y_pred smooth +
        (1 - (weight : ℝ)) * e

/-- Flattening of a rank-3 array to the list of its entries, in order. -/
def flat3 (a : T3) : T1 := (a.map List.flatten).flatten

/-- Spec-side elementwise product reduced to a scalar: the dot product of
two flat lists. -/
def dotProd (a b : T1) : ℚ := (List.zipWith (· * ·) a b).sum

/-- Every entry of the rank-3 array is 0 or 1. -/
def isBinary3 (a : T3) : Prop :=
  ∀ m ∈ a, ∀ r ∈ m, ∀ x ∈ r, x = 0 ∨ x = 1

/-- Every entry of the rank-3 array lies in [0, 1]. -/
def inUnit3 (a : T3) : Prop :=
  ∀ m ∈ a, ∀ r ∈ m, ∀ x ∈ r, 0 ≤ x ∧ x ≤ 1

/-- The rank-3 array has every entry equal to 0. -/
def allZero3 (a : T3) : Prop :=
  ∀ m ∈ a, ∀ r ∈ m, ∀ x ∈ r, x = 0

instance (a : T3) : Decidable (isBinary3 a) := by
  unfold isBinary3; infer_instance

instance (a : T3) : Decidable (inUnit3 a) := by
  unfold inUnit3; infer_instance

instance (a : T3) : Decidable (allZero3 a) := by
  unfold allZero3; infer_instance

/-- Elementwise operation on equal-shape rank-2 arrays (no broadcasting). -/
def zip2 (f : ℚ → ℚ → ℚ) (a b : T2) : T2 := List.zipWith (List.zipWith f) a b

/-- Elementwise operation on equal-shape rank-3 arrays (no broadcasting). -/
def zip3 (f : ℚ → ℚ → ℚ) (a b : T3) : T3 := List.zipWith (zip2 f) a b

/-- Per-sample totals of a batched array: `tf.reduce_sum(a, axis=(1,2))`. -/
def sampleSums (a : T3) : List ℚ := a.map sum2

/-- Per-sample intersection totals `sum(ground_truth * prediction)`. -/
def interSums (t p : T3) : List ℚ := (zip3 (· * ·) t p).map sum2

/-- Per-sample union totals `sum(ground_truth + prediction)`. -/
def unionSums (t p : T3) : List ℚ := (zip3 (· + ·) t p).map sum2

/-- Spec-side per-sample soft Dice scores `(2*I + s) / (U + s)`. -/
def perSampleDice (t p : T3) (s : ℚ) : List ℚ :=
  List.zipWith (fun i u => (2 * i + s) / (u + s)) (interSums t p) (unionSums t p)

/-- The rational number whose logarithm's negation is the first summand of
`dice_coef_loss`: `tf.reduce_mean(intersection + smooth)`. -/
def diceNum (target prediction : T3) (smooth : ℚ) : ℚ :=
  mean (((bmap3 (· * ·) prediction target).map sum2).map (· + smooth))

/-- The rational number inside the second logarithm of `dice_coef_loss`:
`tf.reduce_mean(t + p + smooth)`. -/
def diceDen (target prediction : T3) (smooth : ℚ) : ℚ :=
  mean ((bmap1 (· + ·) (target.map sum2) (prediction.map sum2)).map (· + smooth))

/-- The spec's 4×4 ground-truth mask with a 2×2 foreground square. -/
def maskG : T3 := [[[0, 0, 0, 0], [0, 1, 1, 0], [0, 1, 1, 0], [0, 0, 0, 0]]]

/-- The all-zero 4×4 mask of the spec's concrete scenario. -/
def maskZ : T3 := [[[0, 0, 0, 0], [0, 0, 0, 0], [0, 0, 0, 0], [0, 0, 0, 0]]]

/-- A single-pixel foreground mask. -/
def oneMask : T3 := [[[1]]]

/-- A single-pixel background mask. -/
def zeroMask1 : T3 := [[[0]]]

/-- A 2×2 all-ones sample. -/
def onesT2 : T2 := [[1, 1], [1, 1]]

/-- Batch of one all-ones 2×2 sample. -/
def bT1 : T3 := [onesT2]

/-- Batch of two all-ones 2×2 samples. -/
def bP2 : T3 := [[[1, 1], [1, 1]], [[1, 1], [1, 1]]]

/-- The spec's soft-Dice scenario batch: sample 1 gives intersection 2 and
union 4 against itself, sample 2 is empty. -/
def batchGt : T3 := [[[1, 1], [0, 0]], [[0, 0], [0, 0]]]

/-- A second batch of the same shape as `batchGt`. -/
def batchPr : T3 := [[[1, 0], [0, 0]], [[1, 1], [0, 0]]]

/-- A binary ground-truth mask used as a range witness. -/
def wG : T3 := [[[1, 0], [0, 1]]]

/-- A probability mask in [0,1] used as a range witness. -/
def wP : T3 := [[[1 / 2, 0], [0, 1]]]

/-- Ground truth of the high-score pair: a 4-pixel square. -/
def cexXt : T3 := [[[1, 1, 0], [1, 1, 0], [0, 0, 0]]]

/-- Prediction of the high-score pair: overlaps `cexXt` in 2 pixels. -/
def cexXp : T3 := [[[1, 1, 0], [0, 0, 0], [1, 1, 0]]]

/-- Ground truth of the low-score pair: one pixel. -/
def cexYt : T3 := [[[1, 0, 0], [0, 0, 0], [0, 0, 0]]]

/-- Prediction of the low-score pair: empty. -/
def cexYp : T3 := [[[0, 0, 0], [0, 0, 0], [0, 0, 0]]]

/-- A two-sample ground-truth batch. -/
def pA : T3 := [[[1]], [[0]]]

/-- A two-sample prediction batch. -/
def pB : T3 := [[[1]], [[1]]]

/-- `pA` with its two samples swapped. -/
def pA2 : T3 := [[[0]], [[1]]]

/-- `pB` with its two samples swapped. -/
def pB2 : T3 := [[[1]], [[1]]]

lemma dice_coef_loss_eq (target prediction : T3) (smooth : ℚ) :
    dice_coef_loss target prediction smooth =
      -Real.log (2 * (diceNum target prediction smooth : ℝ)) +
        Real.log ((diceDen target prediction smooth : ℝ)) := rfl

lemma bmap1_length (f : ℚ → ℚ → ℚ) (a b : T1) :
    (bmap1 f a b).length = max a.length b.length := by
  simp [bmap1]

lemma bmap2_length (f : ℚ → ℚ → ℚ) (a b : T2) :
    (bmap2 f a b).length = max a.length b.length := by
  simp [bmap2]

lemma bmap3_length (f : ℚ → ℚ → ℚ) (a b : T3) :
    (bmap3 f a b).length = max a.length b.length := by
  simp [bmap3]

lemma bmap1_eq_zipWith (f : ℚ → ℚ → ℚ) {a b : T1} (h : a.length = b.length) :
    bmap1 f a b = List.zipWith f a b := by
  apply List.ext_getElem
  · simp [bmap1, List.length_zipWith, h]
  · intro i h1 h2
    have hib : i < b.length := by
      have := bmap1_length f a b
      omega
    have hia : i < a.length := by omega
    simp only [bmap1, List.getElem_map, List.getElem_range, List.getElem_zipWith]
    by_cases hc : a.length = 1
    · have hi0 : i = 0 := by omega
      subst hi0
      rw [if_pos hc, if_pos (by omega : b.length = 1)]
      rw [List.getD_eq_getElem _ _ (by omega), List.getD_eq_getElem _ _ (by omega)]
    · rw [if_neg hc, if_neg (by omega : ¬ b.length = 1)]
      rw [List.getD_eq_getElem _ _ hia, List.getD_eq_getElem _ _ hib]

lemma shape2_length {a b : T2} (h : shape2 a = shape2 b) :
    a.length = b.length := by
  have := congrArg List.length h
  simpa [shape2] using this

lemma shape3_length {a b : T3} (h : shape3 a = shape3 b) :
    a.length = b.length := by
  have := congrArg List.length h
  simpa [shape3] using this

lemma shape2_row {a b : T2} (h : shape2 a = shape2 b) {i : ℕ}
    (hia : i < a.length) (hib : i < b.length) : a[i].length = b[i].length := by
  have hsa : i < (shape2 a).length := by simpa [shape2] using hia
  have hsb : i < (shape2 b).length := by simpa [shape2] using hib
  have h1 : (shape2 a)[i] = (shape2 b)[i] := List.getElem_of_eq h hsa
  simpa [shape2] using h1

lemma shape3_sample {a b : T3} (h : shape3 a = shape3 b) {i : ℕ}
    (hia : i < a.length) (hib : i < b.length) : shape2 a[i] = shape2 b[i] := by
  have hsa : i < (shape3 a).length := by simpa [shape3] using hia
  have hsb : i < (shape3 b).length := by simpa [shape3] using hib
  have h1 : (shape3 a)[i] = (shape3 b)[i] := List.getElem_of_eq h hsa
  simpa [shape3] using h1

lemma bmap2_eq_zip2 (f : ℚ → ℚ → ℚ) {a b : T2} (h : shape2 a = shape2 b) :
    bmap2 f a b = zip2 f a b := by
  have hl : a.length = b.length := shape2_length h
  apply List.ext_getElem
  · simp [bmap2, zip2, List.length_zipWith, hl]
  · intro i h1 h2
    have hib : i < b.length := by
      have := bmap2_length f a b
      omega
    have hia : i < a.length := by omega
    simp only [bmap2, zip2, List.getElem_map, List.getElem_range,
      List.getElem_zipWith]
    by_cases hc : a.length = 1
    · have hi0 : i = 0 := by omega
      subst hi0
      rw [if_pos hc, if_pos (by omega : b.length = 1)]
      rw [List.getD_eq_getElem _ _ (by omega), List.getD_eq_getElem _ _ (by omega)]
      exact bmap1_eq_zipWith f (shape2_row h (by omega) (by omega))
    · rw [if_neg hc, if_neg (by omega : ¬ b.length = 1)]
      rw [List.getD_eq_getElem _ _ hia, List.getD_eq_getElem _ _ hib]
      exact bmap1_eq_zipWith f (shape2_row h hia hib)

lemma bmap3_eq_zip3 (f : ℚ → ℚ → ℚ) {a b : T3} (h : shape3 a = shape3 b) :
    bmap3 f a b = zip3 f a b := by
  have hl : a.length = b.length := shape3_length h
  apply List.ext_getElem
  · simp [bmap3, zip3, List.length_zipWith, hl]
  · intro i h1 h2
    have hib : i < b.length := by
      have := bmap3_length f a b
      omega
    have hia : i < a.length := by omega
    simp only [bmap3, zip3, List.getElem_map, List.getElem_range,
      List.getElem_zipWith]
    by_cases hc : a.length = 1
    · have hi0 : i = 0 := by omega
      subst hi0
      rw [if_pos hc, if_pos (by omega : b.length = 1)]
      rw [List.getD_eq_getElem _ _ (by omega), List.getD_eq_getElem _ _ (by omega)]
      exact bmap2_eq_zip2 f (shape3_sample h (by omega) (by omega))
    · rw [if_neg hc, if_neg (by omega : ¬ b.length = 1)]
      rw [List.getD_eq_getElem _ _ hia, List.getD_eq_getElem _ _ hib]
      exact bmap2_eq_zip2 f (shape3_sample h hia hib)

lemma flatten_zip2 (f : ℚ → ℚ → ℚ) :
    ∀ {a b : T2}, shape2 a = shape2 b →
      (zip2 f a b).flatten = List.zipWith f a.flatten b.flatten := by
  intro a
  induction a with
  | nil =>
    intro b h
    have : b = [] := by
      cases b with
      | nil => rfl
      | cons s b2 => simp [shape2] at h
    subst this
    simp [zip2]
  | cons r a2 ih =>
    intro b h
    cases b with
    | nil => simp [shape2] at h
    | cons s b2 =>
      have hh : r.length = s.length ∧ shape2 a2 = shape2 b2 := by
        simpa [shape2] using h
      simp only [zip2, List.zipWith_cons_cons, List.flatten_cons]
      rw [show List.zipWith (List.zipWith f) a2 b2 = zip2 f a2 b2 from rfl]
      rw [ih hh.2, List.zipWith_append _ _ _ _ _ hh.1]

lemma length_flatten_of_shape2 {a b : T2} (h : shape2 a = shape2 b) :
    a.flatten.length = b.flatten.length := by
  rw [List.length_flatten, List.length_flatten]
  exact congrArg List.sum h

lemma flatten_zip3 (f : ℚ → ℚ → ℚ) :
    ∀ {a b : T3}, shape3 a = shape3 b →
      flat3 (zip3 f a b) = List.zipWith f (flat3 a) (flat3 b) := by
  intro a
  induction a with
  | nil =>
    intro b h
    have : b = [] := by
      cases b with
      | nil => rfl
      | cons s b2 => simp [shape3] at h
    subst this
    simp [zip3, flat3]
  | cons m a2 ih =>
    intro b h
    cases b with
    | nil => simp [shape3] at h
    | cons k b2 =>
      have hh : shape2 m = shape2 k ∧ shape3 a2 = shape3 b2 := by
        simpa [shape3] using h
      simp only [zip3, flat3, List.zipWith_cons_cons, List.map_cons,
        List.flatten_cons]
      rw [show List.zipWith (zip2 f) a2 b2 = zip3 f a2 b2 from rfl]
      have hrec := ih hh.2
      simp only [flat3] at hrec
      rw [flatten_zip2 f hh.1, hrec,
        List.zipWith_append _ _ _ _ _ (length_flatten_of_shape2 hh.1)]

lemma sum2_eq_flat (a : T2) : sum2 a = a.flatten.sum := by
  rw [sum2, List.sum_flatten]

lemma sum3_eq_flat (a : T3) : sum3 a = (flat3 a).sum := by
  rw [sum3, flat3, List.sum_flatten, List.map_map]
  congr 1
  apply List.map_congr_left
  intro m _
  simp [Function.comp, sum2_eq_flat]

lemma flatten_inj2 :
    ∀ {a b : T2}, shape2 a = shape2 b → a.flatten = b.flatten → a = b := by
  intro a
  induction a with
  | nil =>
    intro b h _
    cases b with
    | nil => rfl
    | cons s b2 => simp [shape2] at h
  | cons r a2 ih =>
    intro b h hf
    cases b with
    | nil => simp [shape2] at h
    | cons s b2 =>
      have hh : r.length = s.length ∧ shape2 a2 = shape2 b2 := by
        simpa [shape2] using h
      simp only [List.flatten_cons] at hf
      have := List.append_inj hf hh.1
      rw [this.1, ih hh.2 this.2]

lemma flatten_inj3 :
    ∀ {a b : T3}, shape3 a = shape3 b → flat3 a = flat3 b → a = b := by
  intro a
  induction a with
  | nil =>
    intro b h _
    cases b with
    | nil => rfl
    | cons s b2 => simp [shape3] at h
  | cons m a2 ih =>
    intro b h hf
    cases b with
    | nil => simp [shape3] at h
    | cons k b2 =>
      have hh : shape2 m = shape2 k ∧ shape3 a2 = shape3 b2 := by
        simpa [shape3] using h
      simp only [flat3, List.map_cons, List.flatten_cons] at hf
      have hlen : m.flatten.length = k.flatten.length :=
        length_flatten_of_shape2 hh.1
      have := List.append_inj hf hlen
      have hm : m = k := flatten_inj2 hh.1 this.1
      have ha : a2 = b2 := ih hh.2 this.2
      rw [hm, ha]

lemma sum_map_add_const (l : List ℚ) (s : ℚ) :
    (l.map (· + s)).sum = l.sum + l.length * s := by
  induction l with
  | nil => simp
  | cons x l2 ih =>
    simp only [List.map_cons, List.sum_cons, List.length_cons, ih]
    push_cast
    ring

lemma mean_map_add_const {l : List ℚ} (s : ℚ) (h : l ≠ []) :
    mean (l.map (· + s)) = mean l + s := by
  have hn : (l.length : ℚ) ≠ 0 := by
    simp [List.length_eq_zero, h]
  rw [mean, mean, List.length_map, sum_map_add_const, add_div,
    mul_comm, mul_div_assoc, div_self hn, mul_one]

lemma sum_zipWith_add :
    ∀ {a b : List ℚ}, a.length = b.length →
      (List.zipWith (· + ·) a b).sum = a.sum + b.sum := by
  intro a
  induction a with
  | nil =>
    intro b h
    have : b = [] := by
      cases b with
      | nil => rfl
      | cons y b2 => simp at h
    subst this
    simp
  | cons x a2 ih =>
    intro b h
    cases b with
    | nil => simp at h
    | cons y b2 =>
      simp only [List.zipWith_cons_cons, List.sum_cons]
      rw [ih (by simpa using h)]
      ring

lemma zipWith_zipWith_same {α β γ δ ε : Type} (k : γ → δ → ε) (f : α → β → γ)
    (g : α → β → δ) :
    ∀ (a : List α) (b : List β),
      List.zipWith k (List.zipWith f a b) (List.zipWith g a b) =
        List.zipWith (fun x y => k (f x y) (g x y)) a b := by
  intro a
  induction a with
  | nil => intro b; simp
  | cons x a2 ih =>
    intro b
    cases b with
    | nil => simp
    | cons y b2 => simp [ih]

lemma range_map_getD {α β : Type} (l : List α) (g : α → β) (d : α) :
    (List.range l.length).map (fun i => g (l.getD i d)) = l.map g := by
  apply List.ext_getElem
  · simp
  · intro i h1 h2
    have hi : i < l.length := by simpa using h2
    simp only [List.getElem_map, List.getElem_range]
    rw [List.getD_eq_getElem _ _ hi]

lemma bmap1_comm (f : ℚ → ℚ → ℚ) (hf : ∀ x y, f x y = f y x) (a b : T1) :
    bmap1 f a b = bmap1 f b a := by
  unfold bmap1
  rw [Nat.max_comm]
  apply List.map_congr_left
  intro i _
  exact hf _ _

lemma bmap2_comm (f : ℚ → ℚ → ℚ) (hf : ∀ x y, f x y = f y x) (a b : T2) :
    bmap2 f a b = bmap2 f b a := by
  unfold bmap2
  rw [Nat.max_comm]
  apply List.map_congr_left
  intro i _
  exact bmap1_comm f hf _ _

lemma bmap3_comm (f : ℚ → ℚ → ℚ) (hf : ∀ x y, f x y = f y x) (a b : T3) :
    bmap3 f a b = bmap3 f b a := by
  unfold bmap3
  rw [Nat.max_comm]
  apply List.map_congr_left
  intro i _
  exact bmap2_comm f hf _ _

lemma zip2_comm (f : ℚ → ℚ → ℚ) (hf : ∀ x y, f x y = f y x) (a b : T2) :
    zip2 f a b = zip2 f b a := by
  unfold zip2
  exact List.zipWith_comm_of_comm _ (List.zipWith_comm_of_comm f hf) a b

lemma zip3_comm (f : ℚ → ℚ → ℚ) (hf : ∀ x y, f x y = f y x) (a b : T3) :
    zip3 f a b = zip3 f b a := by
  unfold zip3
  exact List.zipWith_comm_of_comm _ (zip2_comm f hf) a b

lemma mem_flat3 {x : ℚ} {a : T3} :
    x ∈ flat3 a ↔ ∃ m ∈ a, ∃ r ∈ m, x ∈ r := by
  simp only [flat3, List.mem_flatten, List.mem_map]
  constructor
  · rintro ⟨l, ⟨m, hm, rfl⟩, hx⟩
    rcases List.mem_flatten.mp hx with ⟨r, hr, hxr⟩
    exact ⟨m, hm, r, hr, hxr⟩
  · rintro ⟨m, hm, r, hr, hxr⟩
    exact ⟨m.flatten, ⟨m, hm, rfl⟩, List.mem_flatten.mpr ⟨r, hr, hxr⟩⟩

lemma forall_flat3 (P : ℚ → Prop) (a : T3) :
    (∀ m ∈ a, ∀ r ∈ m, ∀ x ∈ r, P x) ↔ ∀ x ∈ flat3 a, P x := by
  constructor
  · intro h x hx
    rcases mem_flat3.mp hx with ⟨m, hm, r, hr, hxr⟩
    exact h m hm r hr x hxr
  · intro h m hm r hr x hx
    exact h x (mem_flat3.mpr ⟨m, hm, r, hr, hx⟩)

lemma dotProd_nonneg_le_of_masks :
    ∀ {a b : T1}, a.length = b.length →
      (∀ x ∈ a, x = 0 ∨ x = 1) → (∀ x ∈ b, 0 ≤ x ∧ x ≤ 1) →
      0 ≤ dotProd a b ∧ 2 * dotProd a b ≤ a.sum + b.sum ∧
        (2 * dotProd a b = a.sum + b.sum → a = b) := by
  intro a
  induction a with
  | nil =>
    intro b h _ _
    have : b = [] := by
      cases b with
      | nil => rfl
      | cons y b2 => simp at h
    subst this
    simp [dotProd]
  | cons x a2 ih =>
    intro b h ha hb
    cases b with
    | nil => simp at h
    | cons y b2 =>
      have hx : x = 0 ∨ x = 1 := ha x (by simp)
      have hy : 0 ≤ y ∧ y ≤ 1 := hb y (by simp)
      have ha2 : ∀ z ∈ a2, z = 0 ∨ z = 1 := fun z hz => ha z (by simp [hz])
      have hb2 : ∀ z ∈ b2, 0 ≤ z ∧ z ≤ 1 := fun z hz => hb z (by simp [hz])
      obtain ⟨ih1, ih2, ih3⟩ := ih (by simpa using h) ha2 hb2
      have hd : dotProd (x :: a2) (y :: b2) = x * y + dotProd a2 b2 := by
        simp [dotProd]
      have hhead1 : 0 ≤ x * y := by
        rcases hx with h0 | h1
        · rw [h0]
          simp
        · rw [h1]
          simpa using hy.1
      have hhead2 : 2 * (x * y) ≤ x + y := by
        rcases hx with h0 | h1
        · rw [h0]
          simpa using hy.1
        · rw [h1]
          nlinarith [hy.2]
      have hhead3 : 2 * (x * y) = x + y → x = y := by
        intro he
        rcases hx with h0 | h1
        · rw [h0] at he ⊢
          linarith
        · rw [h1] at he ⊢
          linarith
      refine ⟨?_, ?_, ?_⟩
      · rw [hd]
        exact add_nonneg hhead1 ih1
      · rw [hd]
        simp only [List.sum_cons]
        linarith
      · intro heq
        rw [hd] at heq
        simp only [List.sum_cons] at heq
        have e1 : 2 * (x * y) = x + y := by linarith
        have e2 : 2 * dotProd a2 b2 = a2.sum + b2.sum := by linarith
        rw [hhead3 e1, ih3 e2]

lemma dotProd_self_binary :
    ∀ {l : T1}, (∀ x ∈ l, x = 0 ∨ x = 1) → dotProd l l = l.sum := by
  intro l
  induction l with
  | nil => simp [dotProd]
  | cons x l2 ih =>
    intro h
    have hx : x = 0 ∨ x = 1 := h x (by simp)
    have ht := ih (fun z hz => h z (by simp [hz]))
    have hd : dotProd (x :: l2) (x :: l2) = x * x + dotProd l2 l2 := by
      simp [dotProd]
    rw [hd, ht, List.sum_cons]
    rcases hx with h0 | h1
    · rw [h0]
      ring
    · rw [h1]
      ring

lemma calc_dice_flat {t p : T3} (h : shape3 t = shape3 p) (s : ℚ) :
    calc_dice t p s =
      (2 * dotProd (flat3 t) (flat3 p) + s) /
        ((flat3 t).sum + (flat3 p).sum + s) := by
  simp only [calc_dice, dotProd]
  rw [bmap3_eq_zip3 _ h, sum3_eq_flat, flatten_zip3 _ h, sum3_eq_flat,
    sum3_eq_flat]

lemma mean_of_perm {a b : List ℚ} (h : a.Perm b) : mean a = mean b := by
  rw [mean, mean, h.sum_eq, h.length_eq]

lemma zipWith_eq_map_zip {α β γ : Type} (f : α → β → γ) :
    ∀ (a : List α) (b : List β),
      List.zipWith f a b = (a.zip b).map (fun x => f x.1 x.2) := by
  intro a
  induction a with
  | nil => intro b; simp
  | cons x a2 ih =>
    intro b
    cases b with
    | nil => simp
    | cons y b2 => simp [ih]

lemma mean_zipWith_add {a b : List ℚ} (h : a.length = b.length) :
    mean (List.zipWith (· + ·) a b) = mean a + mean b := by
  rw [mean, mean, mean, sum_zipWith_add h, List.length_zipWith, h, min_self,
    add_div]

lemma length_flat3_of_shape3 {a b : T3} (h : shape3 a = shape3 b) :
    (flat3 a).length = (flat3 b).length := by
  have key : ∀ c : T3, (flat3 c).length = ((shape3 c).map List.sum).sum := by
    intro c
    rw [flat3, List.length_flatten, List.map_map, shape3, List.map_map]
    congr 1
    apply List.map_congr_left
    intro m _
    simp [Function.comp, List.length_flatten, shape2]
  rw [key, key, h]

/-- C1: for equal-shape arrays and any smoothing `s`, `calc_dice`
(hard_overlap_score) returns exactly
`(2 * sum(ground_truth * prediction) + s) / (sum(ground_truth) + sum(prediction) + s)`,
where the elementwise product and both sums reduce over every axis of the
arrays — batch axis included — to a single scalar. -/
theorem calc_dice_full_reduction {t p : T3} (h : shape3 t = shape3 p) (s : ℚ) :
    calc_dice t p s =
      (2 * dotProd (flat3 t) (flat3 p) + s) /
        ((flat3 t).sum + (flat3 p).sum + s) :=
  calc_dice_flat h s

/-- Witness for C1 at the spec's concrete scenario: the 4×4 mask with a 2×2
foreground square scores 1 against itself and 1/5 against the empty mask. -/
theorem calc_dice_full_reduction_witness :
    shape3 maskG = shape3 maskG ∧
      calc_dice maskG maskG 1 =
        (2 * dotProd (flat3 maskG) (flat3 maskG) + 1) /
          ((flat3 maskG).sum + (flat3 maskG).sum + 1) ∧
      calc_dice maskG maskG 1 = 1 ∧ calc_dice maskG maskZ 1 = 1 / 5 :=
  ⟨rfl, calc_dice_full_reduction rfl 1,
    by norm_num [calc_dice, bmap3, bmap2, bmap1, sum3, sum2, maskG,
      List.range_succ],
    by norm_num [calc_dice, bmap3, bmap2, bmap1, sum3, sum2, maskG, maskZ,
      List.range_succ]⟩

/-- C7: `calc_dice` (hard_overlap_score) is symmetric in its two mask
arguments, for every pair of arrays and every smoothing; hence the
evaluation driver's call `calc_dice(pred_mask, msk)` — prediction first —
returns the same score as the ground-truth-first order. -/
theorem calc_dice_symm (t p : T3) (s : ℚ) :
    calc_dice t p s = calc_dice p t s := by
  simp only [calc_dice]
  rw [bmap3_comm _ mul_comm, add_comm (sum3 t)]

/-- C4 counterexample: `calc_dice` performs no shape validation.  A batch-1
array against a batch-2 array — shapes (1,2,2) vs (2,2,2), not identical —
returns the numeric value 17/13 (matching numpy broadcasting) instead of
failing with a `ShapeMismatch` error. -/
theorem shape_mismatch_not_rejected_cex :
    shape3 bT1 ≠ shape3 bP2 ∧ calc_dice bT1 bP2 1 = 17 / 13 :=
  ⟨by decide,
    by norm_num [calc_dice, bmap3, bmap2, bmap1, sum3, sum2, bT1, bP2, onesT2,
      List.range_succ]⟩

/-- C4 amended: the scoring functions contain no shape check and no
`ShapeMismatch` error; on broadcast-compatible mismatched shapes they
return a value.  For a batch-1 ground truth against a batch-n prediction,
`calc_dice` returns the formula value with the single ground-truth sample
broadcast across the prediction batch. -/
theorem calc_dice_broadcast_batch1 {t0 : T2} {p : T3} (hp : p ≠ [])
    (hsh : ∀ m ∈ p, shape2 m = shape2 t0) (s : ℚ) :
    calc_dice [t0] p s =
      (2 * (p.map (fun m => dotProd t0.flatten m.flatten)).sum + s) /
        (sum2 t0 + sum3 p + s) := by
  have hp0 : 0 < p.length := List.length_pos.mpr hp
  have h1 : bmap3 (· * ·) [t0] p = p.map (fun m => bmap2 (· * ·) t0 m) := by
    apply List.ext_getElem
    · simp [bmap3, Nat.max_eq_right hp0]
    · intro i hi1 hi2
      have hip : i < p.length := by simpa using hi2
      simp only [bmap3, List.getElem_map, List.getElem_range]
      have ha : ([t0] : T3).getD (if ([t0] : T3).length = 1 then 0 else i) []
          = t0 := by simp
      rw [ha]
      by_cases hc : p.length = 1
      · have hi0 : i = 0 := by omega
        subst hi0
        rw [if_pos hc, List.getD_eq_getElem _ _ (by omega)]
      · rw [if_neg hc, List.getD_eq_getElem _ _ hip]
  have h3 : ∀ m ∈ p, sum2 (bmap2 (· * ·) t0 m) = dotProd t0.flatten m.flatten := by
    intro m hm
    have hs2 : shape2 t0 = shape2 m := (hsh m hm).symm
    rw [bmap2_eq_zip2 _ hs2, sum2_eq_flat, flatten_zip2 _ hs2, dotProd]
  have h4 : sum3 (p.map (fun m => bmap2 (· * ·) t0 m)) =
      (p.map (fun m => dotProd t0.flatten m.flatten)).sum := by
    simp only [sum3, List.map_map]
    congr 1
    apply List.map_congr_left
    intro m hm
    simpa [Function.comp] using h3 m hm
  have h2 : sum3 [t0] = sum2 t0 := by simp [sum3]
  simp only [calc_dice]
  rw [h1, h4, h2]

/-- Witness for the amended C4: the broadcast value of the mismatched-shape
call equals the formula, and concretely 17/13. -/
theorem calc_dice_broadcast_batch1_witness :
    bP2 ≠ [] ∧ (∀ m ∈ bP2, shape2 m = shape2 onesT2) ∧
      calc_dice [onesT2] bP2 1 =
        (2 * (bP2.map (fun m => dotProd onesT2.flatten m.flatten)).sum + 1) /
          (sum2 onesT2 + sum3 bP2 + 1) ∧
      calc_dice [onesT2] bP2 1 = 17 / 13 :=
  ⟨by decide, by decide, calc_dice_broadcast_batch1 (by decide) (by decide) 1,
    by norm_num [calc_dice, bmap3, bmap2, bmap1, sum3, sum2, bP2, onesT2,
      List.range_succ]⟩

/-- C9 counterexample: a smoothing of 0 — which the claim says must be
rejected with `InvalidSmoothing` — is accepted by `calc_dice`, which
computes and returns the value 1 on the spec's 4×4 mask. -/
theorem smoothing_not_validated_cex : calc_dice maskG maskG 0 = 1 := by
  norm_num [calc_dice, bmap3, bmap2, bmap1, sum3, sum2, maskG,
    List.range_succ]

/-- C9 amended: the scoring functions perform no smoothing validation: a
zero or negative smoothing is accepted and the same formula is computed.
In particular, for any binary mask whose denominator does not vanish,
`calc_dice` of the mask against itself still returns 1 at a non-positive
smoothing. -/
theorem calc_dice_self_nonpos_smoothing {a : T3} {s : ℚ} (hb : isBinary3 a)
    (_hs : s ≤ 0) (hnz : 2 * sum3 a + s ≠ 0) : calc_dice a a s = 1 := by
  rw [calc_dice_flat rfl s, dotProd_self_binary ((forall_flat3 _ a).mp hb)]
  have hden : (flat3 a).sum + (flat3 a).sum + s = 2 * (flat3 a).sum + s := by
    ring
  rw [hden]
  apply div_self
  rw [sum3_eq_flat] at hnz
  exact hnz

/-- Witness for the amended C9 at the single-pixel mask and smoothing 0. -/
theorem calc_dice_self_nonpos_smoothing_witness :
    isBinary3 oneMask ∧ (0 : ℚ) ≤ 0 ∧ 2 * sum3 oneMask + 0 ≠ 0 ∧
      calc_dice oneMask oneMask 0 = 1 :=
  ⟨by decide, le_refl 0, by norm_num [sum3, sum2, oneMask],
    calc_dice_self_nonpos_smoothing (by decide) (le_refl 0)
      (by norm_num [sum3, sum2, oneMask])⟩

/-- C8: for a ground-truth mask with entries in {0,1}, a prediction with
entries in [0,1] and a positive smoothing, `calc_dice` lies in (0, 1], and
equals 1 only in the empty-empty case or on pixel-for-pixel agreement over
a non-empty mask. -/
theorem calc_dice_range {g p : T3} {s : ℚ} (hsh : shape3 g = shape3 p)
    (hg : isBinary3 g) (hp : inUnit3 p) (hs : 0 < s) :
    0 < calc_dice g p s ∧ calc_dice g p s ≤ 1 ∧
      (calc_dice g p s = 1 →
        (allZero3 g ∧ allZero3 p) ∨ (g = p ∧ ¬ allZero3 g)) := by
  have hga := (forall_flat3 _ g).mp hg
  have hpa := (forall_flat3 _ p).mp hp
  have hlen : (flat3 g).length = (flat3 p).length := length_flat3_of_shape3 hsh
  obtain ⟨h1, h2, h3⟩ := dotProd_nonneg_le_of_masks hlen hga hpa
  have hsg : 0 ≤ (flat3 g).sum := by
    apply List.sum_nonneg
    intro x hx
    rcases hga x hx with h0 | h0
    · rw [h0]
    · rw [h0]
      norm_num
  have hsp : 0 ≤ (flat3 p).sum :=
    List.sum_nonneg (fun x hx => (hpa x hx).1)
  have hden : 0 < (flat3 g).sum + (flat3 p).sum + s := by linarith
  rw [calc_dice_flat hsh]
  refine ⟨?_, ?_, ?_⟩
  · exact div_pos (by linarith) hden
  · rw [div_le_one hden]
    linarith
  · intro he
    rw [div_eq_iff (ne_of_gt hden), one_mul] at he
    have heq : 2 * dotProd (flat3 g) (flat3 p) =
        (flat3 g).sum + (flat3 p).sum := by linarith
    have hgp : g = p := flatten_inj3 hsh (h3 heq)
    by_cases hz : allZero3 g
    · exact Or.inl ⟨hz, hgp ▸ hz⟩
    · exact Or.inr ⟨hgp, hz⟩

/-- Witness for C8 at a binary ground truth against a fractional
prediction. -/
theorem calc_dice_range_witness :
    shape3 wG = shape3 wP ∧ isBinary3 wG ∧ inUnit3 wP ∧ (0 : ℚ) < 1 ∧
      (0 < calc_dice wG wP 1 ∧ calc_dice wG wP 1 ≤ 1 ∧
        (calc_dice wG wP 1 = 1 →
          (allZero3 wG ∧ allZero3 wP) ∨ (wG = wP ∧ ¬ allZero3 wG))) :=
  ⟨by decide, by decide, by norm_num [inUnit3, wP], by norm_num,
    calc_dice_range (by decide) (by decide) (by norm_num [inUnit3, wP])
      (by norm_num)⟩

/-- C3: `dice_coef` (soft_overlap_score) computes, per batch element, the
score `(2*I + s) / (U + s)` with `I = sum(ground_truth * prediction)` and
`U = sum(ground_truth + prediction)` over the non-batch axes, and returns
the arithmetic mean of the per-sample scores. -/
theorem dice_coef_per_sample {t p : T3} (h : shape3 t = shape3 p) (s : ℚ) :
    dice_coef t p s = mean (perSampleDice t p s) := by
  simp only [dice_coef, perSampleDice, interSums, unionSums]
  rw [bmap3_eq_zip3 _ h, bmap3_eq_zip3 _ h]
  congr 1
  rw [bmap1_eq_zipWith _ (by simp [zip3, List.length_zipWith]),
    List.zipWith_map_left, List.zipWith_map_right]

/-- Witness for C3 at the spec's concrete scenario: per-sample pairs
(intersection, union) = (2, 4) and (0, 0) with smoothing 1 give scores
[1, 1] and mean 1. -/
theorem dice_coef_per_sample_witness :
    shape3 batchGt = shape3 batchGt ∧
      dice_coef batchGt batchGt 1 = mean (perSampleDice batchGt batchGt 1) ∧
      interSums batchGt batchGt = [2, 0] ∧
      unionSums batchGt batchGt = [4, 0] ∧
      perSampleDice batchGt batchGt 1 = [1, 1] ∧
      dice_coef batchGt batchGt 1 = 1 :=
  ⟨rfl, dice_coef_per_sample rfl 1,
    by norm_num [interSums, zip3, zip2, sum2, batchGt],
    by norm_num [unionSums, zip3, zip2, sum2, batchGt],
    by norm_num [perSampleDice, interSums, unionSums, zip3, zip2, sum2,
      batchGt],
    by norm_num [dice_coef, bmap3, bmap2, bmap1, sum2, mean, batchGt,
      List.range_succ]⟩

/-- C2: `dice_coef_loss` (overlap_loss) equals
`-log(2*(I + s)) + log(T + P + s)` where `I`, `T`, `P` are the batch means
of the per-sample sums of `ground_truth * prediction`, `ground_truth` and
`prediction` over the reduction axes. -/
theorem dice_coef_loss_formula {t p : T3} (h : shape3 t = shape3 p)
    (hne : t ≠ []) (s : ℚ) :
    dice_coef_loss t p s =
      -Real.log (2 * ((mean (interSums t p) + s : ℚ) : ℝ)) +
        Real.log ((mean (sampleSums t) + mean (sampleSums p) + s : ℚ) : ℝ) := by
  have hlen : t.length = p.length := shape3_length h
  have htpos : 0 < t.length := List.length_pos.mpr hne
  rw [dice_coef_loss_eq]
  have hnum : diceNum t p s = mean (interSums t p) + s := by
    rw [diceNum, bmap3_eq_zip3 _ h.symm, zip3_comm _ mul_comm]
    rw [show (zip3 (· * ·) t p).map sum2 = interSums t p from rfl]
    apply mean_map_add_const
    intro hcontra
    have : (interSums t p).length = 0 := by rw [hcontra]; rfl
    rw [interSums, List.length_map, zip3, List.length_zipWith] at this
    omega
  have hden : diceDen t p s =
      mean (sampleSums t) + mean (sampleSums p) + s := by
    rw [diceDen,
      bmap1_eq_zipWith _ (by simp [hlen]),
      show t.map sum2 = sampleSums t from rfl,
      show p.map sum2 = sampleSums p from rfl]
    rw [mean_map_add_const _ (by
      intro hcontra
      have : (List.zipWith (· + ·) (sampleSums t) (sampleSums p)).length = 0 := by
        rw [hcontra]; rfl
      rw [List.length_zipWith, sampleSums, sampleSums, List.length_map,
        List.length_map] at this
      omega)]
    rw [mean_zipWith_add (by simp [sampleSums, hlen])]
  rw [hnum, hden]

/-- Witness for C2 at a concrete two-sample batch. -/
theorem dice_coef_loss_formula_witness :
    shape3 batchGt = shape3 batchPr ∧ batchGt ≠ [] ∧
      dice_coef_loss batchGt batchPr 1 =
        -Real.log (2 * ((mean (interSums batchGt batchPr) + 1 : ℚ) : ℝ)) +
          Real.log ((mean (sampleSums batchGt) + mean (sampleSums batchPr) +
            1 : ℚ) : ℝ) :=
  ⟨by decide, by decide, dice_coef_loss_formula (by decide) (by decide) 1⟩

/-- C5: `combined_dice_ce_loss` (blended_loss) at weight 1 equals
`dice_coef_loss` (broadcast to the shape of the cross-entropy term, i.e.
every entry is exactly the Dice loss with no cross-entropy contribution),
and at weight 0 it equals the elementwise binary cross-entropy exactly. -/
theorem combined_loss_weight_endpoints (t p : T3) (s : ℚ) :
    combined_dice_ce_loss t p s 1 =
      (binary_crossentropy t p).map
        (fun row => row.map (fun _ => dice_coef_loss t p s)) ∧
      combined_dice_ce_loss t p s 0 = binary_crossentropy t p := by
  constructor
  · simp only [combined_dice_ce_loss]
    apply List.map_congr_left
    intro row _
    apply List.map_congr_left
    intro e _
    push_cast
    ring
  · simp only [combined_dice_ce_loss]
    conv_rhs => rw [← List.map_id (binary_crossentropy t p)]
    apply List.map_congr_left
    intro row _
    have he : (fun e : ℝ => ((0 : ℚ) : ℝ) * dice_coef_loss t p s +
        (1 - ((0 : ℚ) : ℝ)) * e) = id := by
      funext e
      simp
    rw [he, List.map_id]
    rfl

/-- C6 counterexample: the pair (`cexXt`, `cexXp`) has a strictly higher
soft Dice score than (`cexYt`, `cexYp`) — 5/9 versus 1/2 — yet its
`dice_coef_loss` is strictly larger (log(3/2) versus 0), not smaller as
the claimed monotone relationship requires: the loss aggregates by
ratio-of-means while the score aggregates by mean-of-ratios. -/
theorem overlap_loss_vs_score_cex :
    dice_coef cexYt cexYp 1 < dice_coef cexXt cexXp 1 ∧
      dice_coef_loss cexYt cexYp 1 < dice_coef_loss cexXt cexXp 1 := by
  constructor
  · norm_num [dice_coef, bmap3, bmap2, bmap1, sum2, mean, cexXt, cexXp,
      cexYt, cexYp, List.range_succ]
  · have hnx : diceNum cexXt cexXp 1 = 3 := by
      norm_num [diceNum, bmap3, bmap2, bmap1, sum2, mean, cexXt, cexXp,
        List.range_succ]
    have hdx : diceDen cexXt cexXp 1 = 9 := by
      norm_num [diceDen, bmap3, bmap2, bmap1, sum2, mean, cexXt, cexXp,
        List.range_succ]
    have hny : diceNum cexYt cexYp 1 = 1 := by
      norm_num [diceNum, bmap3, bmap2, bmap1, sum2, mean, cexYt, cexYp,
        List.range_succ]
    have hdy : diceDen cexYt cexYp 1 = 2 := by
      norm_num [diceDen, bmap3, bmap2, bmap1, sum2, mean, cexYt, cexYp,
        List.range_succ]
    rw [dice_coef_loss_eq, dice_coef_loss_eq, hnx, hdx, hny, hdy]
    push_cast
    have h6 : (2 : ℝ) * 3 = 6 := by norm_num
    have h21 : (2 : ℝ) * 1 = 2 := by norm_num
    rw [h6, h21]
    have h2 : Real.log 6 < Real.log 9 :=
      Real.log_lt_log (by norm_num) (by norm_num)
    linarith

/-- C6 amended: `dice_coef_loss` is strictly decreasing in the aggregate
ratio (batch-mean intersection + smoothing) / (batch-mean total +
smoothing) — not in `dice_coef`, the mean of per-sample ratios, for which
the counterexample above fails the claimed monotonicity. -/
theorem overlap_loss_strict_anti {t1 p1 t2 p2 : T3} {s : ℚ}
    (h1n : 0 < diceNum t1 p1 s) (h1d : 0 < diceDen t1 p1 s)
    (h2n : 0 < diceNum t2 p2 s) (h2d : 0 < diceDen t2 p2 s)
    (hr : diceNum t2 p2 s / diceDen t2 p2 s <
      diceNum t1 p1 s / diceDen t1 p1 s) :
    dice_coef_loss t1 p1 s < dice_coef_loss t2 p2 s := by
  rw [dice_coef_loss_eq, dice_coef_loss_eq]
  have c1n : (0 : ℝ) < (diceNum t1 p1 s : ℝ) := by exact_mod_cast h1n
  have c1d : (0 : ℝ) < (diceDen t1 p1 s : ℝ) := by exact_mod_cast h1d
  have c2n : (0 : ℝ) < (diceNum t2 p2 s : ℝ) := by exact_mod_cast h2n
  have c2d : (0 : ℝ) < (diceDen t2 p2 s : ℝ) := by exact_mod_cast h2d
  have l1 : -Real.log (2 * (diceNum t1 p1 s : ℝ)) +
      Real.log (diceDen t1 p1 s : ℝ) =
      Real.log ((diceDen t1 p1 s : ℝ) / (2 * (diceNum t1 p1 s : ℝ))) := by
    rw [Real.log_div (ne_of_gt c1d) (by positivity)]
    ring
  have l2 : -Real.log (2 * (diceNum t2 p2 s : ℝ)) +
      Real.log (diceDen t2 p2 s : ℝ) =
      Real.log ((diceDen t2 p2 s : ℝ) / (2 * (diceNum t2 p2 s : ℝ))) := by
    rw [Real.log_div (ne_of_gt c2d) (by positivity)]
    ring
  rw [l1, l2]
  apply Real.log_lt_log
  · positivity
  · rw [div_lt_div_iff₀ (by positivity) (by positivity)]
    have hq : diceNum t2 p2 s * diceDen t1 p1 s <
        diceNum t1 p1 s * diceDen t2 p2 s := by
      rw [div_lt_div_iff₀ h2d h1d] at hr
      exact hr
    have hqr : (diceNum t2 p2 s : ℝ) * (diceDen t1 p1 s : ℝ) <
        (diceNum t1 p1 s : ℝ) * (diceDen t2 p2 s : ℝ) := by
      exact_mod_cast hq
    nlinarith [hqr]

/-- Witness for the amended C6: the empty-empty pair has aggregate ratio 1,
the one-pixel-truth/empty-prediction pair has ratio 1/2, and the loss of
the former is strictly smaller. -/
theorem overlap_loss_strict_anti_witness :
    0 < diceNum zeroMask1 zeroMask1 1 ∧ 0 < diceDen zeroMask1 zeroMask1 1 ∧
      0 < diceNum oneMask zeroMask1 1 ∧ 0 < diceDen oneMask zeroMask1 1 ∧
      diceNum oneMask zeroMask1 1 / diceDen oneMask zeroMask1 1 <
        diceNum zeroMask1 zeroMask1 1 / diceDen zeroMask1 zeroMask1 1 ∧
      dice_coef_loss zeroMask1 zeroMask1 1 < dice_coef_loss oneMask zeroMask1 1 :=
  ⟨by norm_num [diceNum, bmap3, bmap2, bmap1, sum2, mean, zeroMask1,
      List.range_succ],
    by norm_num [diceDen, bmap3, bmap2, bmap1, sum2, mean, zeroMask1,
      List.range_succ],
    by norm_num [diceNum, bmap3, bmap2, bmap1, sum2, mean, zeroMask1, oneMask,
      List.range_succ],
    by norm_num [diceDen, bmap3, bmap2, bmap1, sum2, mean, zeroMask1, oneMask,
      List.range_succ],
    by norm_num [diceNum, diceDen, bmap3, bmap2, bmap1, sum2, mean, zeroMask1,
      oneMask, List.range_succ],
    overlap_loss_strict_anti
      (by norm_num [diceNum, bmap3, bmap2, bmap1, sum2, mean, zeroMask1,
        List.range_succ])
      (by norm_num [diceDen, bmap3, bmap2, bmap1, sum2, mean, zeroMask1,
        List.range_succ])
      (by norm_num [diceNum, bmap3, bmap2, bmap1, sum2, mean, zeroMask1,
        oneMask, List.range_succ])
      (by norm_num [diceDen, bmap3, bmap2, bmap1, sum2, mean, zeroMask1,
        oneMask, List.range_succ])
      (by norm_num [diceNum, diceDen, bmap3, bmap2, bmap1, sum2, mean,
        zeroMask1, oneMask, List.range_succ])⟩

/-- C10: `dice_coef_loss` is invariant under permuting the batch elements
of ground truth and prediction simultaneously: it depends only on the
batch-mean totals. -/
theorem dice_coef_loss_batch_perm {t p u q : T3} (s : ℚ)
    (htp : shape3 t = shape3 p) (huq : shape3 u = shape3 q)
    (hperm : (t.zip p).Perm (u.zip q)) :
    dice_coef_loss t p s = dice_coef_loss u q s := by
  have hlt : t.length = p.length := shape3_length htp
  have hlu : u.length = q.length := shape3_length huq
  have hswap : (p.zip t).Perm (q.zip u) := by
    have h := hperm.map Prod.swap
    rwa [List.zip_swap, List.zip_swap] at h
  have hnum : diceNum t p s = diceNum u q s := by
    rw [diceNum, diceNum, bmap3_eq_zip3 _ htp.symm, bmap3_eq_zip3 _ huq.symm]
    apply mean_of_perm
    apply List.Perm.map
    rw [zip3, zipWith_eq_map_zip, List.map_map, zip3, zipWith_eq_map_zip,
      List.map_map]
    exact hswap.map _
  have hden : diceDen t p s = diceDen u q s := by
    rw [diceDen, diceDen, bmap1_eq_zipWith _ (by simp [hlt]),
      bmap1_eq_zipWith _ (by simp [hlu])]
    apply mean_of_perm
    apply List.Perm.map
    rw [List.zipWith_map_left, List.zipWith_map_right, zipWith_eq_map_zip,
      List.zipWith_map_left, List.zipWith_map_right, zipWith_eq_map_zip]
    exact hperm.map _
  rw [dice_coef_loss_eq, dice_coef_loss_eq, hnum, hden]

/-- Witness for C10: swapping the two samples of a concrete batch leaves
the loss unchanged. -/
theorem dice_coef_loss_batch_perm_witness :
    shape3 pA = shape3 pB ∧ shape3 pA2 = shape3 pB2 ∧
      (pA.zip pB).Perm (pA2.zip pB2) ∧
      dice_coef_loss pA pB 1 = dice_coef_loss pA2 pB2 1 :=
  ⟨by decide, by decide, by decide,
    dice_coef_loss_batch_perm 1 (by decide) (by decide) (by decide)⟩

end MedDecathlon
